import Mathlib

set_option maxRecDepth 10000

/-
Verification of the semantic content-relevance scoring engine
(crawl4ai-service/semantic_analysis.py): RateLimiter, the embedding cache,
encode_texts, calculate_similarity and analyze_content_relevance.

Modelling conventions (shallow embedding):
- Python floats (timestamps, similarity scores) are embedded as rationals ℚ.
- numpy row vectors are `Vec := List ℚ`; a batch of embeddings is `List Vec`
  and an empty `np.array([])` is the empty list (the embedding dimension of
  the real model is positive, so `size == 0` coincides with list emptiness).
- The sentence-transformer model is an abstract parameter
  `embed : List String → Except String (List Vec)` (it may fail, as the real
  `model.encode` may); cosine similarity is an abstract parameter
  `sim : Vec → Vec → ℚ`.  The model is taken to be already initialized
  (`initialize` concerns retries and thread scheduling, which no claim here
  touches).
- `hash(tuple(cleaned_texts))` is modelled as the cleaned list itself: within
  one process the hash is a deterministic function of the tuple, so two
  batches share a cache slot exactly when their cleaned sequences coincide.
- Python dicts preserve insertion order, so the cache is an insertion-ordered
  association list.
- A value that may fail an `isinstance(_, str)` check is a `PyVal`.
-/

attribute [local semireducible] Rat.add Rat.mul Rat.sub Rat.inv

namespace SemanticAnalysis

/-- A Python value in a position where a string is expected: an actual string,
or any non-string object (opaque).  Mirrors the `isinstance(text, str)` tests
in the source. -/
inductive PyVal where
  | str (s : String)
  | nonStr
deriving DecidableEq, Repr

/-- One numpy embedding row, as a list of rationals. -/
abbrev Vec := List ℚ

/-- Python str.strip(): remove leading and trailing whitespace, modelled on
the code points of the string.  (Lean String.trim is byte-position-based and
does not reduce in the kernel; this definition is extensionally the same on
the inputs involved.) -/
def pyStrip (s : String) : String :=
  ⟨((s.data.dropWhile Char.isWhitespace).reverse.dropWhile Char.isWhitespace).reverse⟩

/-- Python slice `s[:n]`: the first n code points.  (String.take has the same
meaning but reduces through byte positions; this is the code-point view.) -/
def pyCap (n : Nat) (s : String) : String :=
  ⟨s.data.take n⟩

/-- RateLimiter pruning (semantic_analysis.py lines 30-33): keep only the call
timestamps `t` with `now - t < window`. -/
def rlClean (window : ℚ) (calls : List ℚ) (now : ℚ) : List ℚ :=
  calls.filter fun t => decide (now - t < window)

/-- RateLimiter.is_allowed (lines 25-39) for one identifier: prune the window,
deny if the remaining count reaches max_calls, otherwise record `now` and
admit.  Returns (admitted, new timestamp list). -/
def rlIsAllowed (maxCalls : Nat) (window : ℚ) (calls : List ℚ) (now : ℚ) :
    Bool × List ℚ :=
  let kept := rlClean window calls now
  if maxCalls ≤ kept.length then (false, kept)
  else (true, kept ++ [now])

/-- The mutable state of SemanticAnalysisService that the claims touch:
the embedding cache `self._cache` (insertion-ordered, keyed by the cleaned
batch) and the rate-limiter window `self.rate_limiter.calls[client_id]` of the
one client under consideration. -/
structure ServiceState where
  cache : List (List String × List Vec)
  calls : List ℚ
deriving DecidableEq, Repr

/-- Cleaning in encode_texts (lines 111-115): keep the strings whose strip()
is non-empty, stripped and truncated to 1000 characters. -/
def cleanTexts (texts : List PyVal) : List String :=
  texts.filterMap fun t =>
    match t with
    | .str s => if 0 < (pyStrip s).length then some (pyCap 1000 (pyStrip s)) else none
    | .nonStr => none

/-- Cache key (line 122): `hash(tuple(cleaned_texts))`, modelled as the cleaned
sequence itself (the hash is deterministic within a process run). -/
def cacheKey (texts : List PyVal) : List String :=
  cleanTexts texts

/-- Dict lookup `self._cache[cache_key]` (lines 122-125). -/
def cacheLookup (key : List String) (cache : List (List String × List Vec)) :
    Option (List Vec) :=
  (cache.find? fun e => decide (e.1 = key)).map fun e => e.2

/-- Cache insert followed by the overflow sweep (lines 139-146): append the new
entry; if the dict then holds more than 1000 entries, delete the first 100 keys
in insertion order. -/
def cacheInsert (cache : List (List String × List Vec)) (key : List String)
    (v : List Vec) : List (List String × List Vec) :=
  let c := cache ++ [(key, v)]
  if 1000 < c.length then c.drop 100 else c

/-- Message of the exception raised on rate-limit denial (line 104). -/
def rateLimitMsg : String := "Rate limit exceeded. Please try again later."

/-- encode_texts (lines 99-155).  Order of effects mirrors the source: the rate
limiter is consulted (and mutated) first, before the empty-input, cleaning and
cache checks; the embedder runs only on a cache miss; the fresh result is
cached and the FIFO sweep applied.  An exception becomes an `Except.error`
carrying the Python message. -/
def encodeTexts (maxCalls : Nat) (window : ℚ)
    (embed : List String → Except String (List Vec))
    (texts : List PyVal) (useCache : Bool) (now : ℚ) (st : ServiceState) :
    Except String (List Vec) × ServiceState :=
  let res := rlIsAllowed maxCalls window st.calls now
  let st1 : ServiceState := ⟨st.cache, res.2⟩
  if !res.1 then (.error rateLimitMsg, st1)
  else if texts.isEmpty then (.ok [], st1)
  else
    let cleaned := cleanTexts texts
    if cleaned.isEmpty then (.ok [], st1)
    else
      match (if useCache then cacheLookup cleaned st1.cache else none) with
      | some v => (.ok v, st1)
      | none =>
        match embed cleaned with
        | .error e => (.error ("Embedding generation failed: " ++ e), st1)
        | .ok embs =>
          if useCache then (.ok embs, ⟨cacheInsert st1.cache cleaned embs, res.2⟩)
          else (.ok embs, st1)

/-- calculate_similarity (lines 157-162): empty matrix when either batch is
empty, otherwise the queries × contents matrix of cosine similarities. -/
def calculateSimilarity (sim : Vec → Vec → ℚ) (q c : List Vec) :
    List (List ℚ) :=
  if q.isEmpty || c.isEmpty then []
  else q.map fun qv => c.map fun cv => sim qv cv

/-- Metadata recorded per surviving chunk (lines 197-201). -/
structure ChunkMeta where
  type : String
  original_text : String
  length : Nat
deriving DecidableEq, Repr

/-- A content chunk as received by analyze_content_relevance: either not a dict
with a `text` key at all, or a dict carrying a `text` value (possibly not a
string) and an optional `type`. -/
inductive Chunk where
  | invalid
  | mk (text : PyVal) (ty : Option String)
deriving DecidableEq, Repr

/-- Preview of a chunk (line 199): `text[:200] + ellipsis` when the raw text
exceeds 200 characters, the raw text otherwise. -/
def preview (text : String) : String :=
  if 200 < text.length then pyCap 200 text ++ "..." else text

/-- Surviving chunk texts (lines 192-196): dict chunks with a string `text`
whose strip() exceeds 10 characters, stripped. -/
def extractTexts (chunks : List Chunk) : List String :=
  chunks.filterMap fun c =>
    match c with
    | .mk (.str s) _ => if 10 < (pyStrip s).length then some (pyStrip s) else none
    | _ => none

/-- Metadata of surviving chunks (lines 196-201), aligned with extractTexts. -/
def extractMeta (chunks : List Chunk) : List ChunkMeta :=
  chunks.filterMap fun c =>
    match c with
    | .mk (.str s) ty =>
        if 10 < (pyStrip s).length then
          some ⟨ty.getD "content", preview s, s.length⟩
        else none
    | _ => none

/-- Maximum of a similarity row (np.max, line 235).  Rows are non-empty in
every reachable call; the empty case is given the value 0. -/
def listMax : List ℚ → ℚ
  | [] => 0
  | x :: xs => xs.foldl max x

/-- First index attaining the row maximum (np.argmax, line 236). -/
def argmaxIdx (r : List ℚ) : Nat :=
  r.findIdx fun x => decide (x = listMax r)

/-- The comparison np.argsort sorts by: ascending value, ties by ascending
index (stable).  numpy switches to insertion sort — which is stable — on the
short rows involved here, so the deterministic model is (value, index)
lexicographic order. -/
def argsortLe (r : List ℚ) (i j : Nat) : Prop :=
  r.getD i 0 < r.getD j 0 ∨ (r.getD i 0 = r.getD j 0 ∧ i ≤ j)

instance argsortLe.decRel (r : List ℚ) : DecidableRel (argsortLe r) :=
  fun i j => inferInstanceAs (Decidable (_ ∨ _))

/-- np.argsort of a row (line 239, before slicing). -/
def argsortAsc (r : List ℚ) : List Nat :=
  List.insertionSort (argsortLe r) (List.range r.length)

/-- `np.argsort(row)[-3:][::-1]` (line 239): the (up to) three largest indices,
largest first. -/
def topIndices (r : List ℚ) : List Nat :=
  ((argsortAsc r).drop (r.length - 3)).reverse

/-- One entry of top_matches (lines 244-248). -/
structure TopMatch where
  content : String
  score : ℚ
  type : String
deriving DecidableEq, Repr

/-- One element of query_analysis (lines 254-261). -/
structure Verdict where
  query : PyVal
  is_answered : Bool
  confidence : ℚ
  max_similarity : ℚ
  best_match : String
  top_matches : List TopMatch
deriving DecidableEq, Repr

/-- Fallback metadata; Python would raise IndexError instead, but every index
reaching `content_metadata[idx]` is in range in reachable calls. -/
def metaDflt : ChunkMeta := ⟨"content", "", 0⟩

/-- A default verdict, used only as the `headD` fallback in witnesses. -/
def verdictDflt : Verdict := ⟨.nonStr, false, 0, 0, "", []⟩

/-- Body of the per-query loop (lines 233-261) for one query and its
similarity row. -/
def mkVerdict (q : PyVal) (r : List ℚ) (meta : List ChunkMeta) : Verdict :=
  let maxSim := listMax r
  let tms := (topIndices r).filterMap fun idx =>
    if (1 : ℚ)/10 < r.getD idx 0 then
      some ⟨(meta.getD idx metaDflt).original_text, r.getD idx 0,
            (meta.getD idx metaDflt).type⟩
    else none
  { query := q
    is_answered := decide ((2 : ℚ)/5 < maxSim)
    confidence := min (maxSim * 2) 1
    max_similarity := maxSim
    best_match :=
      match meta.get? (argmaxIdx r) with
      | some m => m.original_text
      | none => ""
    top_matches := tms }

/-- The analysis_metadata dict (lines 280-284). -/
structure AnalysisMeta where
  queries_processed : Nat
  content_chunks_analyzed : Nat
  model_used : String
deriving DecidableEq, Repr

/-- The result dict of analyze_content_relevance.  Keys present only on the
success path are Options that the short-circuit and error dicts leave none. -/
structure Report where
  overall_score : ℚ
  query_analysis : List Verdict
  content_coverage : ℚ
  queries_answered : Option Nat
  total_queries : Option Nat
  recommendations : List String
  analysis_metadata : Option AnalysisMeta
  error : Option String
deriving DecidableEq, Repr

/-- The zero-valued report shape shared by lines 180-186, 203-209, 218-224 and
287-295; only recommendations and the error key differ between them. -/
def zeroReport (recs : List String) (err : Option String) : Report :=
  { overall_score := 0
    query_analysis := []
    content_coverage := 0
    queries_answered := none
    total_queries := none
    recommendations := recs
    analysis_metadata := none
    error := err }

/-- Python round(x, 2).  Ties-to-even at exact half-cent boundaries and binary
floating point are not modelled; no claim depends on either. -/
def round2 (x : ℚ) : ℚ :=
  ((round (x * 100) : ℤ) : ℚ) / 100

/-- Rendering of `f-string {x:.1f}` used in one recommendation (line 306);
the decimal formatting itself is not under any claim. -/
def fmt1 (x : ℚ) : String :=
  let n : ℤ := round (x * 10)
  toString (n / 10) ++ "." ++ toString (n % 10)

/-- Python slice `q[:50]` on a query value (line 313).  A non-string value
never reaches this point: dropping it during cleaning shrinks the similarity
matrix and the per-query loop raises first. -/
def pyTake (n : Nat) : PyVal → String
  | .str s => pyCap n s
  | .nonStr => ""

/-- _generate_recommendations (lines 297-327), fed the unrounded coverage. -/
def genRecommendations (qa : List Verdict) (coverage : ℚ) : List String :=
  let unanswered := qa.filter fun v => !v.is_answered
  let lowConf := qa.filter fun v => v.is_answered && decide (v.confidence < (3 : ℚ)/5)
  let r1 : List String :=
    if coverage < 50 then
      ["Low content coverage (" ++ fmt1 coverage ++
        "%). Add more comprehensive content addressing user questions."]
    else []
  let r2 : List String :=
    if 0 < unanswered.length then
      [toString unanswered.length ++
        " queries have no relevant content. Consider adding FAQ sections or detailed explanations for: " ++
        String.intercalate ", " ((unanswered.take 3).map fun v => pyTake 50 v.query)]
    else []
  let r3 : List String :=
    if 0 < lowConf.length then
      [toString lowConf.length ++
        " queries have weak matches. Improve content clarity and directness for better answer engine optimization."]
    else []
  let r4 : List String :=
    if 80 ≤ coverage then
      ["Excellent content coverage! Consider adding FAQ schema markup for better AEO performance."]
    else if 60 ≤ coverage then
      ["Good content coverage. Focus on improving answer clarity and adding structured data."]
    else []
  r1 ++ r2 ++ r3 ++ r4

/-- Message of the numpy IndexError raised by `similarity_matrix[i]` when the
matrix has fewer rows than there are queries (text abstracted). -/
def indexErrorMsg : String := "index out of bounds for axis 0"

/-- The per-query loop (lines 233-263).  `enumerate(queries)` reads row `i` of
the matrix for every query index `i`; the loop raises IndexError — modelled as
an error result — exactly when the matrix has fewer rows than queries. -/
def buildVerdicts (queries : List PyVal) (M : List (List ℚ))
    (meta : List ChunkMeta) : Except String (List Verdict) :=
  if queries.length ≤ M.length then
    .ok ((List.range queries.length).map fun i =>
      mkVerdict (queries.getD i .nonStr) (M.getD i []) meta)
  else .error indexErrorMsg

/-- Model name fixed in the service constructor (line 44). -/
def modelName : String := "sentence-transformers/all-MiniLM-L6-v2"

/-- Body of the `try` block of analyze_content_relevance (lines 211-285):
encode queries, encode contents, the embeddings-size guard, similarity,
the per-query loop and aggregation.  Any raised exception is the error case,
to be caught by the boundary in `analyzeContentRelevance`. -/
def analyzeCore (maxCalls : Nat) (window : ℚ)
    (embed : List String → Except String (List Vec)) (sim : Vec → Vec → ℚ)
    (queries : List PyVal) (contentTexts : List String)
    (meta : List ChunkMeta) (now1 now2 : ℚ) (st : ServiceState) :
    Except String Report × ServiceState :=
  match encodeTexts maxCalls window embed queries true now1 st with
  | (.error e, st1) => (.error e, st1)
  | (.ok qEmb, st1) =>
    match encodeTexts maxCalls window embed (contentTexts.map .str) true now2 st1 with
    | (.error e, st2) => (.error e, st2)
    | (.ok cEmb, st2) =>
      if qEmb.isEmpty || cEmb.isEmpty then
        (.ok (zeroReport ["Failed to generate embeddings"] none), st2)
      else
        let M := calculateSimilarity sim qEmb cEmb
        match buildVerdicts queries M meta with
        | .error e => (.error e, st2)
        | .ok qa =>
          let totalScore := (qa.map Verdict.confidence).sum
          let overall := totalScore / (queries.length : ℚ) * 100
          let answered := (qa.filter fun v => v.is_answered).length
          let coverage := (answered : ℚ) / (queries.length : ℚ) * 100
          (.ok { overall_score := round2 overall
                 query_analysis := qa
                 content_coverage := round2 coverage
                 queries_answered := some answered
                 total_queries := some queries.length
                 recommendations := genRecommendations qa coverage
                 analysis_metadata :=
                   some ⟨queries.length, contentTexts.length, modelName⟩
                 error := none }, st2)

/-- analyze_content_relevance (lines 164-295): the empty-input short-circuit,
chunk filtering, the no-meaningful-content short-circuit, then the `try` body;
an exception escaping the body is converted at this boundary into a zero
report carrying the error message (lines 287-295). -/
def analyzeContentRelevance (maxCalls : Nat) (window : ℚ)
    (embed : List String → Except String (List Vec)) (sim : Vec → Vec → ℚ)
    (queries : List PyVal) (chunks : List Chunk) (now1 now2 : ℚ)
    (st : ServiceState) : Report × ServiceState :=
  if queries.isEmpty || chunks.isEmpty then
    (zeroReport [] none, st)
  else
    let contentTexts := extractTexts chunks
    if contentTexts.isEmpty then
      (zeroReport ["No meaningful content found for analysis"] none, st)
    else
      match analyzeCore maxCalls window embed sim queries contentTexts
          (extractMeta chunks) now1 now2 st with
      | (.ok rep, st2) => (rep, st2)
      | (.error e, st2) => (zeroReport ["Analysis failed: " ++ e] (some e), st2)

/-- Whether a query value survives the cleaning step of encode_texts: a
string whose strip() is non-empty.  Non-string and whitespace-only queries
are silently dropped there (lines 113-115). -/
def isCleanQuery : PyVal → Bool
  | .str s => decide (0 < (pyStrip s).length)
  | .nonStr => false

instance argsortLe.isTotal (r : List ℚ) : IsTotal Nat (argsortLe r) :=
  ⟨by
    intro i j
    rcases lt_trichotomy (r.getD i 0) (r.getD j 0) with h | h | h
    · exact Or.inl (Or.inl h)
    · rcases Nat.le_total i j with hij | hij
      · exact Or.inl (Or.inr ⟨h, hij⟩)
      · exact Or.inr (Or.inr ⟨h.symm, hij⟩)
    · exact Or.inr (Or.inl h)⟩

instance argsortLe.isTrans (r : List ℚ) : IsTrans Nat (argsortLe r) :=
  ⟨by
    intro i j k hij hjk
    rcases hij with h1 | ⟨h1, h1i⟩ <;> rcases hjk with h2 | ⟨h2, h2i⟩
    · exact Or.inl (h1.trans h2)
    · exact Or.inl (h2 ▸ h1)
    · exact Or.inl (h1 ▸ h2)
    · exact Or.inr ⟨h1.trans h2, h1i.trans h2i⟩⟩

/-! ## Helper lemmas -/

theorem rl_fst_eq (maxCalls : Nat) (window : ℚ) (calls : List ℚ) (now : ℚ) :
    (rlIsAllowed maxCalls window calls now).1
      = decide ((rlClean window calls now).length < maxCalls) := by
  unfold rlIsAllowed
  by_cases h : maxCalls ≤ (rlClean window calls now).length
  · rw [if_pos h]
    exact (decide_eq_false (by omega)).symm
  · rw [if_neg h]
    exact (decide_eq_true (by omega)).symm

theorem rl_snd_eq (maxCalls : Nat) (window : ℚ) (calls : List ℚ) (now : ℚ) :
    (rlIsAllowed maxCalls window calls now).2
      = if (rlClean window calls now).length < maxCalls
        then rlClean window calls now ++ [now] else rlClean window calls now := by
  unfold rlIsAllowed
  by_cases h : maxCalls ≤ (rlClean window calls now).length
  · rw [if_pos h, if_neg (by omega)]
  · rw [if_neg h, if_pos (by omega)]

theorem rl_snd_of_allowed {maxCalls : Nat} {window : ℚ} {calls : List ℚ} {now : ℚ}
    (h : (rlIsAllowed maxCalls window calls now).1 = true) :
    (rlIsAllowed maxCalls window calls now).2 = rlClean window calls now ++ [now] := by
  rw [rl_fst_eq] at h
  rw [rl_snd_eq, if_pos (of_decide_eq_true h)]

/-! ## Claims -/

/-- C2: RateLimiter.is_allowed keeps, per identifier, an ordered timestamp
list; each check discards the entries older than now - window (first
conjunct: such entries are not in the pruned list), admits exactly when the
pruned count is below max_calls (second conjunct), appends now exactly on
admission (third conjunct), denies the next call once max_calls admitted
calls sit inside the window (fourth conjunct), and admits again after the
window has elapsed past every recorded timestamp (fifth conjunct). -/
theorem rateLimiter_sliding_window (maxCalls : Nat) (window now : ℚ) (calls : List ℚ) :
    (∀ t ∈ calls, t < now - window → t ∉ rlClean window calls now) ∧
    ((rlIsAllowed maxCalls window calls now).1 = true ↔
      (rlClean window calls now).length < maxCalls) ∧
    ((rlIsAllowed maxCalls window calls now).2 =
      if (rlClean window calls now).length < maxCalls
      then rlClean window calls now ++ [now] else rlClean window calls now) ∧
    (maxCalls ≤ calls.length → (∀ t ∈ calls, now - t < window) →
      (rlIsAllowed maxCalls window calls now).1 = false) ∧
    (0 < maxCalls → (∀ t ∈ calls, window ≤ now - t) →
      (rlIsAllowed maxCalls window calls now).1 = true) := by
  refine ⟨?_, ?_, rl_snd_eq _ _ _ _, ?_, ?_⟩
  · intro t _ hlt hmem
    have h := List.mem_filter.mp hmem
    have h2 : now - t < window := of_decide_eq_true h.2
    linarith
  · rw [rl_fst_eq]
    exact decide_eq_true_iff
  · intro h1 h2
    have hclean : rlClean window calls now = calls :=
      List.filter_eq_self.mpr fun t ht => decide_eq_true (h2 t ht)
    rw [rl_fst_eq, hclean]
    exact decide_eq_false (by omega)
  · intro h1 h2
    have hclean : rlClean window calls now = [] :=
      List.filter_eq_nil_iff.mpr fun t ht =>
        by simpa using not_lt.mpr (h2 t ht)
    rw [rl_fst_eq, hclean]
    exact decide_eq_true (by simpa using h1)

/-- C2 witness: with max_calls 2 and a one-hour window, two in-window calls
deny a third at time 30, and the same window admits again at time 7300. -/
theorem rateLimiter_sliding_window_witness :
    (rlIsAllowed 2 3600 [10, 20] 30).1 = false ∧
    (rlIsAllowed 2 3600 [10, 20] 7300).1 = true :=
  ⟨(rateLimiter_sliding_window 2 3600 30 [10, 20]).2.2.2.1 (by decide) (by decide),
   (rateLimiter_sliding_window 2 3600 7300 [10, 20]).2.2.2.2 (by decide) (by decide)⟩


/-- C10: every encode_texts call that passes the rate-limit check appends the
admission timestamp to the window (first conjunct: on every path the
resulting window is the pruned list plus now), including the paths that do no
embedding work: an empty batch (second conjunct), a batch that cleans to
empty (third conjunct), and a cache hit (fourth conjunct) — on those paths
the result is independent of the embedder argument and the cache is
unchanged, yet the quota is consumed. -/
theorem encode_consumes_quota
    (maxCalls : Nat) (window : ℚ) (embed : List String → Except String (List Vec))
    (texts : List PyVal) (useCache : Bool) (now : ℚ) (st : ServiceState)
    (hrate : (rlIsAllowed maxCalls window st.calls now).1 = true) :
    (encodeTexts maxCalls window embed texts useCache now st).2.calls
      = rlClean window st.calls now ++ [now] ∧
    (texts = [] →
      encodeTexts maxCalls window embed texts useCache now st
        = (.ok [], ⟨st.cache, rlClean window st.calls now ++ [now]⟩)) ∧
    (cleanTexts texts = [] →
      encodeTexts maxCalls window embed texts useCache now st
        = (.ok [], ⟨st.cache, rlClean window st.calls now ++ [now]⟩)) ∧
    (∀ v, useCache = true → cleanTexts texts ≠ [] →
      cacheLookup (cleanTexts texts) st.cache = some v →
      encodeTexts maxCalls window embed texts useCache now st
        = (.ok v, ⟨st.cache, rlClean window st.calls now ++ [now]⟩)) := by
  have hsnd := rl_snd_of_allowed hrate
  refine ⟨?_, ?_, ?_, ?_⟩
  · simp only [encodeTexts, hrate, hsnd, Bool.not_true, Bool.false_eq_true, if_false]
    split
    · rfl
    split
    · rfl
    split
    · rfl
    split
    · rfl
    split <;> rfl
  · intro h
    subst h
    simp [encodeTexts, hrate, hsnd]
  · intro h
    by_cases ht : texts.isEmpty <;>
      simp [encodeTexts, hrate, hsnd, ht, h]
  · intro v huc hcl hlook
    subst huc
    have ht : texts.isEmpty = false := by
      rcases texts with _ | ⟨a, ts⟩
      · exact absurd rfl hcl
      · rfl
    have hce : (cleanTexts texts).isEmpty = false := by
      rcases hc : cleanTexts texts with _ | ⟨a, ts⟩
      · exact absurd hc hcl
      · rfl
    simp [encodeTexts, hrate, hsnd, ht, hce, hlook]

/-- C10 witness: an empty batch at time 100, after one recorded call at 50,
returns the empty vector batch, leaves the cache empty, and still appends the
timestamp 100 to the rate window. -/
theorem encode_consumes_quota_witness :
    encodeTexts 5 3600 (fun _ => .error "no") [] true 100 ⟨[], [50]⟩
      = (.ok [], ⟨[], [50, 100]⟩) := by
  have h := encode_consumes_quota 5 3600 (fun _ => .error "no") [] true 100 ⟨[], [50]⟩
    (by decide)
  exact h.2.1 rfl


theorem cacheLookup_insert_self (c : List (List String × List Vec))
    (k : List String) (v : List Vec) (h : cacheLookup k c = none) :
    cacheLookup k (cacheInsert c k v) = some v := by
  have hfind : c.find? (fun e => decide (e.1 = k)) = none := by
    rcases hf : c.find? (fun e => decide (e.1 = k)) with _ | e
    · exact hf
    · unfold cacheLookup at h
      rw [hf] at h
      simp at h
  have hall : ∀ e ∈ c, ¬ ((fun e => decide (e.1 = k)) e = true) :=
    List.find?_eq_none.mp hfind
  by_cases hlen : 1000 < (c ++ [(k, v)]).length
  · simp only [cacheInsert, if_pos hlen]
    have hc : 100 ≤ c.length := by
      rw [List.length_append] at hlen
      simp at hlen
      omega
    rw [List.drop_append_of_le_length hc]
    unfold cacheLookup
    rw [List.find?_append]
    have hdrop : (c.drop 100).find? (fun e => decide (e.1 = k)) = none :=
      List.find?_eq_none.mpr fun e he => hall e ((List.drop_sublist _ _).subset he)
    rw [hdrop]
    simp [List.find?]
  · simp only [cacheInsert, if_neg hlen]
    unfold cacheLookup
    rw [List.find?_append, hfind]
    simp [List.find?]

/-- C3: encoding the same cleaned batch twice returns the cached vectors on
the second call with no embedder invocation: after a first call that misses
the cache and embeds to v, a second call whose cleaned sequence is identical
returns the very same v for an arbitrary (even always-failing) embedder and
leaves the cache untouched; and two batches share a cache key exactly when
their cleaned sequences are identical and in the same order (final conjunct;
the Python hash of the cleaned tuple is modelled as injective). -/
theorem encode_cache_round_trip
    (maxCalls : Nat) (window now1 now2 : ℚ)
    (embed embed2 : List String → Except String (List Vec))
    (texts texts2 : List PyVal) (st : ServiceState) (v : List Vec)
    (hclean : cleanTexts texts ≠ [])
    (hkey : cleanTexts texts2 = cleanTexts texts)
    (hrate1 : (rlIsAllowed maxCalls window st.calls now1).1 = true)
    (hmiss : cacheLookup (cleanTexts texts) st.cache = none)
    (hembed : embed (cleanTexts texts) = .ok v)
    (hrate2 : (rlIsAllowed maxCalls window
        (encodeTexts maxCalls window embed texts true now1 st).2.calls now2).1 = true) :
    (encodeTexts maxCalls window embed texts true now1 st).1 = .ok v ∧
    (encodeTexts maxCalls window embed2 texts2 true now2
        (encodeTexts maxCalls window embed texts true now1 st).2).1 = .ok v ∧
    (encodeTexts maxCalls window embed2 texts2 true now2
        (encodeTexts maxCalls window embed texts true now1 st).2).2.cache
      = (encodeTexts maxCalls window embed texts true now1 st).2.cache ∧
    (∀ b1 b2 : List PyVal, cacheKey b1 = cacheKey b2 ↔ cleanTexts b1 = cleanTexts b2) := by
  have ht : texts.isEmpty = false := by
    rcases texts with _ | ⟨a, ts⟩
    · exact absurd rfl hclean
    · rfl
  have hce : (cleanTexts texts).isEmpty = false := by
    rcases hc : cleanTexts texts with _ | ⟨a, ts⟩
    · exact absurd hc hclean
    · rfl
  have hfirst : encodeTexts maxCalls window embed texts true now1 st
      = (.ok v, ⟨cacheInsert st.cache (cleanTexts texts) v,
                 rlClean window st.calls now1 ++ [now1]⟩) := by
    simp [encodeTexts, hrate1, rl_snd_of_allowed hrate1, ht, hce, hmiss, hembed]
  rw [hfirst] at hrate2 ⊢
  have hclean2 : cleanTexts texts2 ≠ [] := by
    rw [hkey]
    exact hclean
  have ht2 : texts2.isEmpty = false := by
    rcases texts2 with _ | ⟨a, ts⟩
    · exact absurd rfl hclean2
    · rfl
  have hce2 : (cleanTexts texts2).isEmpty = false := by
    rcases hc : cleanTexts texts2 with _ | ⟨a, ts⟩
    · exact absurd hc hclean2
    · rfl
  have hhit : cacheLookup (cleanTexts texts2)
      (cacheInsert st.cache (cleanTexts texts) v) = some v := by
    rw [hkey]
    exact cacheLookup_insert_self st.cache (cleanTexts texts) v hmiss
  have hsecond : encodeTexts maxCalls window embed2 texts2 true now2
      (⟨cacheInsert st.cache (cleanTexts texts) v,
        rlClean window st.calls now1 ++ [now1]⟩ : ServiceState)
      = (.ok v, ⟨cacheInsert st.cache (cleanTexts texts) v,
          rlClean window (rlClean window st.calls now1 ++ [now1]) now2 ++ [now2]⟩) := by
    simp [encodeTexts, hrate2, rl_snd_of_allowed hrate2, ht2, hce2, hhit]
  rw [hsecond]
  exact ⟨rfl, rfl, rfl, fun b1 b2 => Iff.rfl⟩

/-- C3 witness: the batch ["hello world"] encoded at time 0 with an embedder
returning [[1]] is served again at time 1 with the same vectors by an
always-failing embedder, showing the second call never invokes it. -/
theorem encode_cache_round_trip_witness :
    (encodeTexts 10 3600 (fun _ => .error "boom") [.str "hello world"] true 1
        (encodeTexts 10 3600 (fun _ => .ok [[1]]) [.str "hello world"] true 0
          ⟨[], []⟩).2).1
      = .ok [[1]] := by
  have h := encode_cache_round_trip 10 3600 0 1 (fun _ => .ok [[1]])
    (fun _ => .error "boom") [.str "hello world"] [.str "hello world"]
    ⟨[], []⟩ [[1]] (by decide) rfl (by decide) (by decide) rfl (by decide)
  exact h.2.1


theorem cacheInsert_length_le (c : List (List String × List Vec))
    (k : List String) (v : List Vec) (h : c.length ≤ 1000) :
    (cacheInsert c k v).length ≤ 1000 := by
  by_cases hlen : 1000 < (c ++ [(k, v)]).length
  · simp only [cacheInsert, if_pos hlen]
    rw [List.length_drop, List.length_append]
    simp
    omega
  · simp only [cacheInsert, if_neg hlen]
    rw [List.length_append] at hlen ⊢
    simp at hlen ⊢
    omega

/-- C7: the embedding cache never exceeds 1000 entries once an encode_texts
call completes (second conjunct: every path preserves the bound), and on
overflow exactly the 100 earliest-inserted entries are evicted: inserting into
a full 1000-entry cache yields the cache minus its first 100 entries, with the
new entry appended last (first conjunct) — insertion-order FIFO, so across
distinct-batch insertions the earliest keys always leave first. -/
theorem cache_bounded_fifo :
    (∀ (c : List (List String × List Vec)) (k : List String) (v : List Vec),
      (c.length ≤ 1000 → (cacheInsert c k v).length ≤ 1000) ∧
      (c.length = 1000 → cacheInsert c k v = c.drop 100 ++ [(k, v)])) ∧
    (∀ (maxCalls : Nat) (window : ℚ)
       (embed : List String → Except String (List Vec)) (texts : List PyVal)
       (useCache : Bool) (now : ℚ) (st : ServiceState),
      st.cache.length ≤ 1000 →
      (encodeTexts maxCalls window embed texts useCache now st).2.cache.length
        ≤ 1000) := by
  constructor
  · intro c k v
    refine ⟨cacheInsert_length_le c k v, ?_⟩
    intro hfull
    have hlen : 1000 < (c ++ [(k, v)]).length := by
      simp [hfull]
    simp only [cacheInsert, if_pos hlen]
    exact List.drop_append_of_le_length (by omega)
  · intro maxCalls window embed texts useCache now st hst
    simp only [encodeTexts]
    split
    · exact hst
    split
    · exact hst
    split
    · exact hst
    split
    · exact hst
    split
    · exact hst
    split
    · exact cacheInsert_length_le _ _ _ hst
    · exact hst

/-- C7 witness: inserting a fresh key into a full 1000-entry cache evicts
exactly the first 100 entries, and a concrete encode_texts call preserves the
1000-entry bound. -/
theorem cache_bounded_fifo_witness :
    cacheInsert (List.replicate 1000 (([], []) : List String × List Vec))
        ["k"] [[1]]
      = (List.replicate 1000 (([], []) : List String × List Vec)).drop 100
          ++ [(["k"], [[1]])] ∧
    (encodeTexts 5 3600 (fun ts => .ok (ts.map fun _ => [1]))
        [.str "hello there"] true 0 ⟨[], []⟩).2.cache.length ≤ 1000 :=
  ⟨(cache_bounded_fifo.1 _ _ _).2 (by simp),
   cache_bounded_fifo.2 5 3600 _ _ _ 0 ⟨[], []⟩ (by simp)⟩


/-- C4: analyze_content_relevance returns the zero report immediately when
queries or chunks are empty (first two conjuncts — the result is independent
of the embedder binder and the state is untouched, so no model work or quota
is consumed), drops every chunk whose stripped text length is at most 10
(third conjunct), and when no chunk survives returns the zero report whose
recommendations say no meaningful content was found (fourth conjunct). -/
theorem analyze_short_circuits
    (maxCalls : Nat) (window : ℚ) (embed : List String → Except String (List Vec))
    (sim : Vec → Vec → ℚ) (queries : List PyVal) (chunks : List Chunk)
    (now1 now2 : ℚ) (st : ServiceState) :
    (queries = [] →
      analyzeContentRelevance maxCalls window embed sim queries chunks now1 now2 st
        = (zeroReport [] none, st)) ∧
    (chunks = [] →
      analyzeContentRelevance maxCalls window embed sim queries chunks now1 now2 st
        = (zeroReport [] none, st)) ∧
    (∀ (s : String) (ty : Option String) (rest : List Chunk),
      (pyStrip s).length ≤ 10 →
      extractTexts (Chunk.mk (.str s) ty :: rest) = extractTexts rest ∧
      extractMeta (Chunk.mk (.str s) ty :: rest) = extractMeta rest) ∧
    (queries ≠ [] → chunks ≠ [] → extractTexts chunks = [] →
      analyzeContentRelevance maxCalls window embed sim queries chunks now1 now2 st
        = (zeroReport ["No meaningful content found for analysis"] none, st)) := by
  refine ⟨?_, ?_, ?_, ?_⟩
  · intro h
    subst h
    simp [analyzeContentRelevance]
  · intro h
    subst h
    simp [analyzeContentRelevance]
  · intro s ty rest h
    constructor
    · simp [extractTexts, Nat.not_lt.mpr h]
    · simp [extractMeta, Nat.not_lt.mpr h]
  · intro hq hc hext
    have hqe : queries.isEmpty = false := by
      rcases queries with _ | ⟨a, qs⟩
      · exact absurd rfl hq
      · rfl
    have hce : chunks.isEmpty = false := by
      rcases chunks with _ | ⟨a, cs⟩
      · exact absurd rfl hc
      · rfl
    simp [analyzeContentRelevance, hqe, hce, hext]

/-- C4 witness: an empty query list yields the bare zero report with the state
untouched, and a single whitespace-padded 4-character chunk is filtered out,
yielding the no-meaningful-content zero report — both with an embedder that
would fail if invoked. -/
theorem analyze_short_circuits_witness :
    analyzeContentRelevance 5 3600 (fun _ => .error "down") (fun _ _ => 1) []
        [Chunk.mk (.str "long enough content here") none] 0 0 ⟨[], []⟩
      = (zeroReport [] none, ⟨[], []⟩) ∧
    analyzeContentRelevance 5 3600 (fun _ => .error "down") (fun _ _ => 1)
        [.str "what is x?"] [Chunk.mk (.str "  tiny  ") none] 0 0 ⟨[], []⟩
      = (zeroReport ["No meaningful content found for analysis"] none,
          ⟨[], []⟩) := by
  constructor
  · exact (analyze_short_circuits 5 3600 (fun _ => .error "down") (fun _ _ => 1) []
      [Chunk.mk (.str "long enough content here") none] 0 0 ⟨[], []⟩).1 rfl
  · exact (analyze_short_circuits 5 3600 (fun _ => .error "down") (fun _ _ => 1)
      [.str "what is x?"] [Chunk.mk (.str "  tiny  ") none] 0 0 ⟨[], []⟩).2.2.2
      (by decide) (by decide) (by decide)


theorem buildVerdicts_mem {queries : List PyVal} {M : List (List ℚ)}
    {meta : List ChunkMeta} {L : List Verdict}
    (h : buildVerdicts queries M meta = .ok L) :
    ∀ v ∈ L, ∃ i, v = mkVerdict (queries.getD i .nonStr) (M.getD i []) meta := by
  unfold buildVerdicts at h
  split at h
  · cases h
    intro v hv
    rcases List.mem_map.mp hv with ⟨i, _, rfl⟩
    exact ⟨i, rfl⟩
  · cases h

theorem analyzeCore_ok_query_analysis {maxCalls : Nat} {window : ℚ}
    {embed : List String → Except String (List Vec)} {sim : Vec → Vec → ℚ}
    {queries : List PyVal} {contentTexts : List String} {meta : List ChunkMeta}
    {now1 now2 : ℚ} {st : ServiceState} {rep : Report} {st2 : ServiceState}
    (h : analyzeCore maxCalls window embed sim queries contentTexts meta now1 now2 st
        = (.ok rep, st2)) :
    rep.query_analysis = [] ∨
      ∃ M, buildVerdicts queries M meta = .ok rep.query_analysis := by
  unfold analyzeCore at h
  split at h
  · simp at h
  next qEmb st1 _ =>
    split at h
    · simp at h
    next cEmb st1b _ =>
      simp only [] at h
      split at h
      · rw [Prod.mk.injEq] at h
        cases (Except.ok.injEq _ _).mp h.1
        exact Or.inl rfl
      · split at h
        · simp at h
        next qa heq =>
          rw [Prod.mk.injEq] at h
          cases (Except.ok.injEq _ _).mp h.1
          exact Or.inr ⟨_, heq⟩

theorem mem_query_analysis {maxCalls : Nat} {window : ℚ}
    {embed : List String → Except String (List Vec)} {sim : Vec → Vec → ℚ}
    {queries : List PyVal} {chunks : List Chunk} {now1 now2 : ℚ}
    {st : ServiceState} {v : Verdict}
    (hv : v ∈ (analyzeContentRelevance maxCalls window embed sim queries chunks
        now1 now2 st).1.query_analysis) :
    ∃ q r meta, v = mkVerdict q r meta := by
  unfold analyzeContentRelevance at hv
  simp only [] at hv
  split at hv
  · simp [zeroReport] at hv
  · split at hv
    · simp [zeroReport] at hv
    · split at hv
      next rep st2 heq =>
        rcases analyzeCore_ok_query_analysis heq with hnil | ⟨M, hbv⟩
        · rw [hnil] at hv
          simp at hv
        · rcases buildVerdicts_mem hbv v hv with ⟨i, rfl⟩
          exact ⟨_, _, _, rfl⟩
      next e st2 heq =>
        simp [zeroReport] at hv

/-- C5: every verdict in a report of analyze_content_relevance satisfies
is_answered exactly when its maximum similarity strictly exceeds 0.4 (first
conjunct, with the boundary value 0.4 itself giving false — third conjunct)
and carries confidence = min(maxSimilarity * 2, 1) (second conjunct). -/
theorem verdict_threshold_confidence
    (maxCalls : Nat) (window : ℚ) (embed : List String → Except String (List Vec))
    (sim : Vec → Vec → ℚ) (queries : List PyVal) (chunks : List Chunk)
    (now1 now2 : ℚ) (st : ServiceState) :
    ∀ v ∈ (analyzeContentRelevance maxCalls window embed sim queries chunks
        now1 now2 st).1.query_analysis,
      (v.is_answered = true ↔ (2 : ℚ)/5 < v.max_similarity) ∧
      v.confidence = min (v.max_similarity * 2) 1 ∧
      (v.max_similarity = (2 : ℚ)/5 → v.is_answered = false) := by
  intro v hv
  rcases mem_query_analysis hv with ⟨q, r, meta, rfl⟩
  refine ⟨?_, rfl, ?_⟩
  · simp [mkVerdict]
  · intro h
    simp only [mkVerdict] at h ⊢
    rw [h]
    simp


/-- C5 witness: a concrete run with all cosine scores 1/2 produces a verdict,
and the theorem applies to it: its confidence is min(maxSimilarity * 2, 1). -/
theorem verdict_threshold_confidence_witness :
    ((analyzeContentRelevance 1000 3600 (fun ts => .ok (ts.map fun _ => [1]))
        (fun _ _ => mkRat 1 2) [.str "what is x?"]
        [Chunk.mk (.str "this content is long enough") (some "paragraph")]
        0 0 ⟨[], []⟩).1.query_analysis.headD verdictDflt).confidence
      = min (((analyzeContentRelevance 1000 3600 (fun ts => .ok (ts.map fun _ => [1]))
        (fun _ _ => mkRat 1 2) [.str "what is x?"]
        [Chunk.mk (.str "this content is long enough") (some "paragraph")]
        0 0 ⟨[], []⟩).1.query_analysis.headD verdictDflt).max_similarity * 2) 1 :=
  (verdict_threshold_confidence 1000 3600 (fun ts => .ok (ts.map fun _ => [1]))
    (fun _ _ => mkRat 1 2) [.str "what is x?"]
    [Chunk.mk (.str "this content is long enough") (some "paragraph")]
    0 0 ⟨[], []⟩ _ (by decide)).2.1

/-- C1: exceptions inside the analysis body are caught at the analyzer
boundary and become a zero-valued report carrying the error message — never a
raised exception (the embedding is total by construction; first conjunct:
any error result of the body maps to the zero report with the `error` field
set).  In particular a rate-limit denial (second conjunct) and an embedder
failure while encoding the queries (third conjunct) surface this way. -/
theorem analyzer_error_boundary
    (maxCalls : Nat) (window : ℚ) (embed : List String → Except String (List Vec))
    (sim : Vec → Vec → ℚ) (queries : List PyVal) (chunks : List Chunk)
    (now1 now2 : ℚ) (st : ServiceState)
    (hq : queries ≠ []) (hc : chunks ≠ []) (hct : extractTexts chunks ≠ []) :
    (∀ e st2,
      analyzeCore maxCalls window embed sim queries (extractTexts chunks)
          (extractMeta chunks) now1 now2 st = (.error e, st2) →
      analyzeContentRelevance maxCalls window embed sim queries chunks now1 now2 st
        = (zeroReport ["Analysis failed: " ++ e] (some e), st2)) ∧
    ((rlIsAllowed maxCalls window st.calls now1).1 = false →
      (analyzeContentRelevance maxCalls window embed sim queries chunks
          now1 now2 st).1
        = zeroReport ["Analysis failed: " ++ rateLimitMsg] (some rateLimitMsg)) ∧
    (∀ m, (rlIsAllowed maxCalls window st.calls now1).1 = true →
      cleanTexts queries ≠ [] →
      cacheLookup (cleanTexts queries) st.cache = none →
      embed (cleanTexts queries) = .error m →
      (analyzeContentRelevance maxCalls window embed sim queries chunks
          now1 now2 st).1
        = zeroReport ["Analysis failed: " ++ ("Embedding generation failed: " ++ m)]
            (some ("Embedding generation failed: " ++ m))) := by
  have hqe : queries.isEmpty = false := by
    rcases queries with _ | ⟨a, qs⟩
    · exact absurd rfl hq
    · rfl
  have hce : chunks.isEmpty = false := by
    rcases chunks with _ | ⟨a, cs⟩
    · exact absurd rfl hc
    · rfl
  have hcte : (extractTexts chunks).isEmpty = false := by
    rcases hx : extractTexts chunks with _ | ⟨a, cs⟩
    · exact absurd hx hct
    · rfl
  have hboundary : ∀ e st2,
      analyzeCore maxCalls window embed sim queries (extractTexts chunks)
          (extractMeta chunks) now1 now2 st = (.error e, st2) →
      analyzeContentRelevance maxCalls window embed sim queries chunks now1 now2 st
        = (zeroReport ["Analysis failed: " ++ e] (some e), st2) := by
    intro e st2 hcore
    simp [analyzeContentRelevance, hqe, hce, hcte, hcore]
  refine ⟨hboundary, ?_, ?_⟩
  · intro hr
    have h1 : encodeTexts maxCalls window embed queries true now1 st
        = (.error rateLimitMsg, ⟨st.cache, (rlIsAllowed maxCalls window st.calls now1).2⟩) := by
      simp [encodeTexts, hr]
    have hcore : analyzeCore maxCalls window embed sim queries (extractTexts chunks)
        (extractMeta chunks) now1 now2 st
        = (.error rateLimitMsg,
           ⟨st.cache, (rlIsAllowed maxCalls window st.calls now1).2⟩) := by
      unfold analyzeCore
      rw [h1]
    rw [hboundary rateLimitMsg _ hcore]
  · intro m hr hcl hmiss hembed
    have hcle : (cleanTexts queries).isEmpty = false := by
      rcases hx : cleanTexts queries with _ | ⟨a, cs⟩
      · exact absurd hx hcl
      · rfl
    have h1 : encodeTexts maxCalls window embed queries true now1 st
        = (.error ("Embedding generation failed: " ++ m),
           ⟨st.cache, (rlIsAllowed maxCalls window st.calls now1).2⟩) := by
      simp [encodeTexts, hr, hqe, hcle, hmiss, hembed]
    have hcore : analyzeCore maxCalls window embed sim queries (extractTexts chunks)
        (extractMeta chunks) now1 now2 st
        = (.error ("Embedding generation failed: " ++ m),
           ⟨st.cache, (rlIsAllowed maxCalls window st.calls now1).2⟩) := by
      unfold analyzeCore
      rw [h1]
    rw [hboundary _ _ hcore]

/-- C1 witness: with max_calls 0 every call is rate-limit denied, and the
analyzer converts the denial raised inside encode_texts into the zero report
carrying the rate-limit message in its error field. -/
theorem analyzer_error_boundary_witness :
    (analyzeContentRelevance 0 3600 (fun ts => .ok (ts.map fun _ => [1]))
        (fun _ _ => 1) [.str "what is x?"]
        [Chunk.mk (.str "this content is long enough") none] 0 0 ⟨[], []⟩).1
      = zeroReport ["Analysis failed: " ++ rateLimitMsg] (some rateLimitMsg) :=
  (analyzer_error_boundary 0 3600 (fun ts => .ok (ts.map fun _ => [1]))
    (fun _ _ => 1) [.str "what is x?"]
    [Chunk.mk (.str "this content is long enough") none] 0 0 ⟨[], []⟩
    (by decide) (by decide) (by decide)).2.1 (by decide)


/-- C6: refuted by the code — the claim (confidence in [0,1], scores in
[0,100] for all inputs including negative cosine similarities) matches the
inline comment `Scale to 0-1` at line 252 and the spec data model, but
`min(max_similarity * 2, 1.0)` has no lower clamp: with every cosine
similarity equal to -1/2 (cosine ranges over [-1,1]) the verdict confidence
is -1 and the overall score is -100. -/
theorem confidence_negative_bug :
    ((analyzeContentRelevance 1000 3600 (fun ts => .ok (ts.map fun _ => [1]))
        (fun _ _ => -(mkRat 1 2)) [.str "what is x?"]
        [Chunk.mk (.str "this content is long enough") (some "paragraph")]
        0 0 ⟨[], []⟩).1.query_analysis.headD verdictDflt).confidence = -1 ∧
    ((analyzeContentRelevance 1000 3600 (fun ts => .ok (ts.map fun _ => [1]))
        (fun _ _ => -(mkRat 1 2)) [.str "what is x?"]
        [Chunk.mk (.str "this content is long enough") (some "paragraph")]
        0 0 ⟨[], []⟩).1.overall_score = -100) ∧
    (((analyzeContentRelevance 1000 3600 (fun ts => .ok (ts.map fun _ => [1]))
        (fun _ _ => -(mkRat 1 2)) [.str "what is x?"]
        [Chunk.mk (.str "this content is long enough") (some "paragraph")]
        0 0 ⟨[], []⟩).1.query_analysis.headD verdictDflt).confidence < 0) ∧
    ((analyzeContentRelevance 1000 3600 (fun ts => .ok (ts.map fun _ => [1]))
        (fun _ _ => -(mkRat 1 2)) [.str "what is x?"]
        [Chunk.mk (.str "this content is long enough") (some "paragraph")]
        0 0 ⟨[], []⟩).1.overall_score < 0) := by
  refine ⟨by decide, by decide, by decide, by decide⟩


theorem argsortAsc_perm (r : List ℚ) :
    (argsortAsc r).Perm (List.range r.length) :=
  List.perm_insertionSort _ _

theorem argsortAsc_sorted (r : List ℚ) :
    List.Sorted (argsortLe r) (argsortAsc r) :=
  List.sorted_insertionSort _ _

theorem argsortAsc_nodup (r : List ℚ) : (argsortAsc r).Nodup :=
  (argsortAsc_perm r).symm.nodup (List.nodup_range _)

theorem topIndices_length_le (r : List ℚ) : (topIndices r).length ≤ 3 := by
  rw [topIndices, List.length_reverse, List.length_drop]
  have h : (argsortAsc r).length = r.length := by
    rw [argsortAsc, List.length_insertionSort, List.length_range]
  omega

theorem topIndices_mem_lt (r : List ℚ) : ∀ i ∈ topIndices r, i < r.length := by
  intro i hi
  have h1 : i ∈ (argsortAsc r).drop (r.length - 3) := by
    simpa [topIndices] using hi
  have h2 : i ∈ argsortAsc r := (List.drop_sublist _ _).subset h1
  exact List.mem_range.mp ((argsortAsc_perm r).mem_iff.mp h2)

theorem topIndices_pairwise (r : List ℚ) :
    (topIndices r).Pairwise (fun i j => argsortLe r j i ∧ j ≠ i) := by
  have hs : ((argsortAsc r).drop (r.length - 3)).Pairwise (argsortLe r) :=
    List.Pairwise.sublist (List.drop_sublist _ _) (argsortAsc_sorted r)
  have hnd : ((argsortAsc r).drop (r.length - 3)).Pairwise (fun i j => i ≠ j) :=
    List.Pairwise.sublist (List.drop_sublist _ _) (argsortAsc_nodup r)
  rw [topIndices, List.pairwise_reverse]
  exact hs.and hnd

theorem topIndices_complete (r : List ℚ) :
    ∀ j < r.length, j ∉ topIndices r → ∀ i ∈ topIndices r, argsortLe r j i := by
  intro j hj hnot i hi
  have hjs : j ∈ argsortAsc r :=
    (argsortAsc_perm r).mem_iff.mpr (List.mem_range.mpr hj)
  rw [← List.take_append_drop (r.length - 3) (argsortAsc r)] at hjs
  have hjmem : j ∈ (argsortAsc r).take (r.length - 3) := by
    rcases List.mem_append.mp hjs with h | h
    · exact h
    · exact absurd (by simpa [topIndices] using h) hnot
  have hi2 : i ∈ (argsortAsc r).drop (r.length - 3) := by
    simpa [topIndices] using hi
  exact (argsortAsc_sorted r).rel_of_mem_take_of_mem_drop hjmem hi2

/-- C8 counterexample: with four tied chunks (similarity 1/2 each, texts of
201 characters), the first listed top match is the preview of chunk 3, not of
chunk 0 — ties are broken toward the later chunk, refuting first-seen
tie-breaking — and that preview is 203 characters long, refuting the
at-most-200-character preview. -/
theorem top_matches_claim_counterexample :
    ((((analyzeContentRelevance 1000 3600 (fun ts => .ok (ts.map fun _ => [1]))
        (fun _ _ => mkRat 1 2) [.str "which chunk matches best?"]
        [Chunk.mk (.str (String.mk (List.replicate 201 'a'))) (some "paragraph"),
         Chunk.mk (.str (String.mk (List.replicate 201 'b'))) (some "paragraph"),
         Chunk.mk (.str (String.mk (List.replicate 201 'c'))) (some "paragraph"),
         Chunk.mk (.str (String.mk (List.replicate 201 'd'))) (some "paragraph")]
        0 0 ⟨[], []⟩).1.query_analysis.headD verdictDflt).top_matches.map
          TopMatch.content)
      = [String.mk (List.replicate 200 'd') ++ "...",
         String.mk (List.replicate 200 'c') ++ "...",
         String.mk (List.replicate 200 'b') ++ "..."]) ∧
    ((((analyzeContentRelevance 1000 3600 (fun ts => .ok (ts.map fun _ => [1]))
        (fun _ _ => mkRat 1 2) [.str "which chunk matches best?"]
        [Chunk.mk (.str (String.mk (List.replicate 201 'a'))) (some "paragraph"),
         Chunk.mk (.str (String.mk (List.replicate 201 'b'))) (some "paragraph"),
         Chunk.mk (.str (String.mk (List.replicate 201 'c'))) (some "paragraph"),
         Chunk.mk (.str (String.mk (List.replicate 201 'd'))) (some "paragraph")]
        0 0 ⟨[], []⟩).1.query_analysis.headD verdictDflt).top_matches.headD
          ⟨"", 0, ""⟩).content.length = 203) ∧
    (((analyzeContentRelevance 1000 3600 (fun ts => .ok (ts.map fun _ => [1]))
        (fun _ _ => mkRat 1 2) [.str "which chunk matches best?"]
        [Chunk.mk (.str (String.mk (List.replicate 201 'a'))) (some "paragraph"),
         Chunk.mk (.str (String.mk (List.replicate 201 'b'))) (some "paragraph"),
         Chunk.mk (.str (String.mk (List.replicate 201 'c'))) (some "paragraph"),
         Chunk.mk (.str (String.mk (List.replicate 201 'd'))) (some "paragraph")]
        0 0 ⟨[], []⟩).1.query_analysis.headD verdictDflt).top_matches.headD
          ⟨"", 0, ""⟩).content ≠ String.mk (List.replicate 200 'a') ++ "..." :=
  ⟨by decide, by decide, by decide⟩

theorem foldl_max_mem (xs : List ℚ) : ∀ a : ℚ, xs.foldl max a ∈ a :: xs := by
  induction xs with
  | nil =>
    intro a
    simp
  | cons b bs ih =>
    intro a
    rw [List.foldl_cons]
    rcases List.mem_cons.mp (ih (max a b)) with hh | hh
    · rcases max_choice a b with h | h
      · rw [hh, h]
        exact List.mem_cons_self _ _
      · rw [hh, h]
        exact List.mem_cons_of_mem _ (List.mem_cons_self _ _)
    · exact List.mem_cons_of_mem _ (List.mem_cons_of_mem _ hh)

theorem listMax_mem (r : List ℚ) (h : r ≠ []) : listMax r ∈ r := by
  rcases r with _ | ⟨x, xs⟩
  · exact absurd rfl h
  · exact foldl_max_mem xs x

theorem findIdx_spec (p : ℚ → Bool) (r : List ℚ) (hex : ∃ x ∈ r, p x = true) :
    r.findIdx p < r.length ∧ p (r.getD (r.findIdx p) 0) = true ∧
    ∀ j < r.findIdx p, p (r.getD j 0) = false := by
  induction r with
  | nil =>
    rcases hex with ⟨x, hx, _⟩
    cases hx
  | cons a xs ih =>
    cases hpa : p a
    · have hex2 : ∃ x ∈ xs, p x = true := by
        rcases hex with ⟨x, hx, hpx⟩
        rcases List.mem_cons.mp hx with rfl | hx2
        · rw [hpa] at hpx
          cases hpx
        · exact ⟨x, hx2, hpx⟩
      rcases ih hex2 with ⟨h1, h2, h3⟩
      have hstep : List.findIdx p (a :: xs) = xs.findIdx p + 1 := by
        simp [List.findIdx_cons, hpa]
      refine ⟨?_, ?_, ?_⟩
      · rw [hstep, List.length_cons]
        omega
      · simpa [hstep] using h2
      · intro j hj
        rw [hstep] at hj
        rcases j with _ | j2
        · simpa using hpa
        · have hj2 : j2 < xs.findIdx p := by omega
          simpa using h3 j2 hj2
    · refine ⟨by simp [List.findIdx_cons, hpa], ?_, ?_⟩
      · simp [List.findIdx_cons, hpa]
      · intro j hj
        rw [List.findIdx_cons, hpa] at hj
        simp at hj

theorem argmaxIdx_spec (r : List ℚ) (h : r ≠ []) :
    argmaxIdx r < r.length ∧ r.getD (argmaxIdx r) 0 = listMax r ∧
    ∀ j < argmaxIdx r, r.getD j 0 ≠ listMax r := by
  have hex : ∃ x ∈ r, (fun x => decide (x = listMax r)) x = true :=
    ⟨listMax r, listMax_mem r h, decide_eq_true rfl⟩
  rcases findIdx_spec _ r hex with ⟨h1, h2, h3⟩
  exact ⟨h1, of_decide_eq_true h2, fun j hj => of_decide_eq_false (h3 j hj)⟩

/-- C8 amended: top_matches holds up to 3 chunks, exactly those with score
strictly above 0.1 among the (value, index)-lexicographically largest three,
in descending score order with ties broken toward the larger original index
(later chunks first); non-selected indices never lexicographically exceed the
selected ones; each match carries the metadata preview, which is the chunk
text itself when at most 200 characters and its first 200 characters plus an
ellipsis (203 characters in total) otherwise, together with its kind; and
best_match carries the same metadata preview — a bare string with no kind —
taken at the first index attaining the maximum similarity (last two
conjuncts). -/
theorem top_matches_amended (q : PyVal) (r : List ℚ) (meta : List ChunkMeta) :
    ((mkVerdict q r meta).top_matches.length ≤ 3) ∧
    (∀ m ∈ (mkVerdict q r meta).top_matches, (1 : ℚ)/10 < m.score) ∧
    ((mkVerdict q r meta).top_matches.Pairwise fun m1 m2 => m2.score ≤ m1.score) ∧
    ((topIndices r).Pairwise fun i j => argsortLe r j i ∧ j ≠ i) ∧
    (∀ i ∈ topIndices r, i < r.length) ∧
    (∀ j < r.length, j ∉ topIndices r → ∀ i ∈ topIndices r, argsortLe r j i) ∧
    (∀ m ∈ (mkVerdict q r meta).top_matches, ∃ i ∈ topIndices r,
      m.content = (meta.getD i metaDflt).original_text ∧
      m.score = r.getD i 0 ∧ m.type = (meta.getD i metaDflt).type) ∧
    (∀ s : String, (s.length ≤ 200 → preview s = s) ∧
      (200 < s.length →
        preview s = pyCap 200 s ++ "..." ∧ (preview s).length = 203)) ∧
    (argmaxIdx r < meta.length →
      (mkVerdict q r meta).best_match
        = (meta.getD (argmaxIdx r) metaDflt).original_text) ∧
    (r ≠ [] → argmaxIdx r < r.length ∧ r.getD (argmaxIdx r) 0 = listMax r ∧
      ∀ j < argmaxIdx r, r.getD j 0 ≠ listMax r) := by
  refine ⟨?_, ?_, ?_, topIndices_pairwise r, topIndices_mem_lt r,
    topIndices_complete r, ?_, ?_, ?_, fun h => argmaxIdx_spec r h⟩
  · exact le_trans (List.length_filterMap_le _ _) (topIndices_length_le r)
  · intro m hm
    rcases List.mem_filterMap.mp hm with ⟨i, _, hf⟩
    split at hf
    · cases hf
      assumption
    · cases hf
  · refine List.pairwise_filterMap.mpr ((topIndices_pairwise r).imp ?_)
    intro i j hij m1 hm1 m2 hm2
    simp only [Option.mem_def] at hm1 hm2
    split at hm1
    · cases hm1
      split at hm2
      · cases hm2
        rcases hij.1 with h | ⟨h, _⟩
        · exact le_of_lt h
        · exact le_of_eq h
      · cases hm2
    · cases hm1
  · intro m hm
    rcases List.mem_filterMap.mp hm with ⟨i, hi, hf⟩
    split at hf
    · cases hf
      exact ⟨i, hi, rfl, rfl, rfl⟩
    · cases hf
  · intro s
    constructor
    · intro h
      rw [preview, if_neg (by omega)]
    · intro h
      rw [preview, if_pos h]
      refine ⟨rfl, ?_⟩
      rw [String.length_append]
      have hcap : (pyCap 200 s).length = 200 := by
        show (s.data.take 200).length = 200
        rw [List.length_take]
        have : s.length = s.data.length := rfl
        omega
      rw [hcap]
      decide
  · intro hlt
    show (match meta.get? (argmaxIdx r) with
          | some m => m.original_text
          | none => "") = _
    rw [List.get?_eq_getElem?, List.getElem?_eq_getElem hlt,
      List.getD_eq_getElem _ _ hlt]

/-- C8 amended witness: on a concrete two-chunk row both matches clear the 0.1
threshold; the theorem applies to the first listed match. -/
theorem top_matches_amended_witness :
    (1 : ℚ)/10 <
      ((mkVerdict (.str "q") [mkRat 1 2, mkRat 3 5]
        [⟨"p", "alpha", 5⟩, ⟨"p", "beta", 4⟩]).top_matches.headD
          ⟨"", 0, ""⟩).score :=
  (top_matches_amended (.str "q") [mkRat 1 2, mkRat 3 5]
    [⟨"p", "alpha", 5⟩, ⟨"p", "beta", 4⟩]).2.1 _ (by decide)


theorem cleanTexts_length_of_clean {queries : List PyVal}
    (hq : ∀ q ∈ queries, isCleanQuery q = true) :
    (cleanTexts queries).length = queries.length := by
  induction queries with
  | nil => rfl
  | cons a qs ih =>
    have ha := hq a (List.mem_cons_self a qs)
    have hrest := fun q hqm => hq q (List.mem_cons_of_mem a hqm)
    rcases a with s | _
    · have hs : 0 < (pyStrip s).length := of_decide_eq_true ha
      have hstep : cleanTexts (PyVal.str s :: qs)
          = pyCap 1000 (pyStrip s) :: cleanTexts qs := by
        simp only [cleanTexts, List.filterMap_cons, if_pos hs]
      rw [hstep, List.length_cons, List.length_cons, ih hrest]
    · simp [isCleanQuery] at ha

theorem cleanTexts_length_lt {queries : List PyVal}
    (hbad : ∃ q ∈ queries, isCleanQuery q = false) :
    (cleanTexts queries).length < queries.length := by
  rcases hbad with ⟨q, hmem, hq⟩
  rcases List.append_of_mem hmem with ⟨l1, l2, rfl⟩
  have hsplit : cleanTexts (l1 ++ q :: l2) = cleanTexts l1 ++ cleanTexts (q :: l2) :=
    List.filterMap_append _ _ _
  have hcons : cleanTexts (q :: l2) = cleanTexts l2 := by
    rcases q with s | _
    · have h0 : ¬ 0 < (pyStrip s).length := by simpa [isCleanQuery] using hq
      simp [cleanTexts, List.filterMap_cons, h0]
    · simp [cleanTexts, List.filterMap_cons]
  rw [hsplit, hcons, List.length_append, List.length_append, List.length_cons]
  have h1 : (cleanTexts l1).length ≤ l1.length := List.length_filterMap_le _ _
  have h2 : (cleanTexts l2).length ≤ l2.length := List.length_filterMap_le _ _
  omega

theorem cacheLookup_some_length {key : List String}
    {c : List (List String × List Vec)} {v : List Vec}
    (h : cacheLookup key c = some v)
    (hc : ∀ e ∈ c, e.2.length = e.1.length) : v.length = key.length := by
  unfold cacheLookup at h
  rcases hf : c.find? (fun e => decide (e.1 = key)) with _ | e
  · rw [hf] at h
    simp at h
  · rw [hf] at h
    simp at h
    have hkey : e.1 = key := by simpa using List.find?_some hf
    have hmem := List.mem_of_find?_eq_some hf
    rw [← h, hc e hmem, hkey]

/-- C9: when every query is a string that is non-empty after stripping, the
cleaned query list keeps its length (first conjunct), so the matrix built from
a successful encode has one row per query (second conjunct; the embedder and
the cache entries deliver one row per input) and the per-query loop succeeds,
verdict i being built from query i and row i (third conjunct).  The
precondition is necessary: a non-string or whitespace-only query is silently
dropped during cleaning, leaving the matrix with strictly fewer rows than
queries (fourth conjunct), so the loop would read rows out of range.  The
fifth conjunct records that the similarity matrix has one row per query
embedding. -/
theorem query_row_alignment
    (maxCalls : Nat) (window : ℚ) (embed : List String → Except String (List Vec))
    (sim : Vec → Vec → ℚ) (queries : List PyVal) (st : ServiceState) (now : ℚ) :
    ((∀ q ∈ queries, isCleanQuery q = true) →
      (cleanTexts queries).length = queries.length) ∧
    ((∀ q ∈ queries, isCleanQuery q = true) → queries ≠ [] →
      (rlIsAllowed maxCalls window st.calls now).1 = true →
      (∀ e ∈ st.cache, e.2.length = e.1.length) →
      (∀ ts v, embed ts = .ok v → v.length = ts.length) →
      ∀ qEmb, (encodeTexts maxCalls window embed queries true now st).1 = .ok qEmb →
        qEmb.length = queries.length) ∧
    (∀ (M : List (List ℚ)) (meta : List ChunkMeta), queries.length ≤ M.length →
      ∃ L, buildVerdicts queries M meta = .ok L ∧ L.length = queries.length ∧
        ∀ i < queries.length, L.getD i verdictDflt
          = mkVerdict (queries.getD i .nonStr) (M.getD i []) meta) ∧
    ((∃ q ∈ queries, isCleanQuery q = false) →
      (cleanTexts queries).length < queries.length) ∧
    (∀ qEmb cEmb : List Vec, qEmb ≠ [] → cEmb ≠ [] →
      (calculateSimilarity sim qEmb cEmb).length = qEmb.length) := by
  refine ⟨fun hq => cleanTexts_length_of_clean hq, ?_, ?_, fun h => cleanTexts_length_lt h, ?_⟩
  · intro hq hqne hrate hcache hembed qEmb hok
    have hlen := cleanTexts_length_of_clean hq
    have hcl : cleanTexts queries ≠ [] := by
      intro hnil
      rw [hnil] at hlen
      rcases queries with _ | ⟨a, qs⟩
      · exact hqne rfl
      · simp at hlen
    have ht : queries.isEmpty = false := by
      rcases queries with _ | ⟨a, qs⟩
      · exact absurd rfl hqne
      · rfl
    have hce : (cleanTexts queries).isEmpty = false := by
      rcases hx : cleanTexts queries with _ | ⟨a, cs⟩
      · exact absurd hx hcl
      · rfl
    rcases hlook : cacheLookup (cleanTexts queries) st.cache with _ | v
    · rcases hemb : embed (cleanTexts queries) with e | w
      · have hres : (encodeTexts maxCalls window embed queries true now st).1
            = .error ("Embedding generation failed: " ++ e) := by
          simp [encodeTexts, hrate, ht, hce, hlook, hemb]
        rw [hres] at hok
        cases hok
      · have hres : (encodeTexts maxCalls window embed queries true now st).1
            = .ok w := by
          simp [encodeTexts, hrate, ht, hce, hlook, hemb]
        rw [hres] at hok
        cases hok
        rw [hembed _ _ hemb, hlen]
    · have hres : (encodeTexts maxCalls window embed queries true now st).1
          = .ok v := by
        simp [encodeTexts, hrate, ht, hce, hlook]
      rw [hres] at hok
      cases hok
      rw [cacheLookup_some_length hlook hcache, hlen]
  · intro M meta hM
    refine ⟨(List.range queries.length).map fun i =>
        mkVerdict (queries.getD i .nonStr) (M.getD i []) meta, ?_, by simp, ?_⟩
    · unfold buildVerdicts
      rw [if_pos hM]
    · intro i hi
      rw [List.getD_eq_getElem _ _ (by simpa using hi)]
      simp
  · intro qEmb cEmb hq hc
    have h1 : qEmb.isEmpty = false := by
      rcases qEmb with _ | ⟨a, qs⟩
      · exact absurd rfl hq
      · rfl
    have h2 : cEmb.isEmpty = false := by
      rcases cEmb with _ | ⟨a, cs⟩
      · exact absurd rfl hc
      · rfl
    simp [calculateSimilarity, h1, h2]

/-- C9 witness: two clean queries keep both rows — the encode result has one
row per query — while replacing the second query by a non-string drops it,
leaving fewer rows than queries. -/
theorem query_row_alignment_witness :
    (cleanTexts [PyVal.str "first query?", PyVal.str "second query?"]).length
      = ([PyVal.str "first query?", PyVal.str "second query?"] : List PyVal).length ∧
    (cleanTexts [PyVal.str "first query?", PyVal.nonStr]).length
      < ([PyVal.str "first query?", PyVal.nonStr] : List PyVal).length ∧
    ([[1], [1]] : List Vec).length
      = ([PyVal.str "first query?", PyVal.str "second query?"] : List PyVal).length := by
  refine ⟨(query_row_alignment 5 3600 (fun ts => .ok (ts.map fun _ => [1]))
      (fun _ _ => 0) [PyVal.str "first query?", PyVal.str "second query?"]
      ⟨[], []⟩ 0).1 (by decide),
    (query_row_alignment 5 3600 (fun ts => .ok (ts.map fun _ => [1]))
      (fun _ _ => 0) [PyVal.str "first query?", PyVal.nonStr]
      ⟨[], []⟩ 0).2.2.2.1 (by decide), ?_⟩
  exact (query_row_alignment 5 3600 (fun ts => .ok (ts.map fun _ => [1]))
      (fun _ _ => 0) [PyVal.str "first query?", PyVal.str "second query?"]
      ⟨[], []⟩ 0).2.1 (by decide) (by decide) (by decide)
    (fun e he => absurd he (List.not_mem_nil e))
    (by
      intro ts v h
      cases h
      simp)
    [[1], [1]] rfl


end SemanticAnalysis
